import Mathlib

/-!
Verification of the RecallMatrix backend against its specification.

The Python services under `backend/app/services/` are shallowly embedded as
pure Lean functions: database tables become lists of row structures, the
clock becomes an explicit `Nat` parameter, and each external collaborator
(embedding HTTP API, object storage, Telegram file endpoint, pgvector
distance) becomes an explicit parameter recording that call's outcome.
-/

namespace RecallMatrix

/-! ## Auth domain (`app/services/auth_service.py`)

Rows of `telegram_auth_codes` and `telegram_connections`.  Timestamps are
modelled as `Nat`. -/

/-- A row of the `telegram_auth_codes` table. -/
structure AuthCodeRow where
  user_id : String
  code : String
  created_at : Nat
  expires_at : Nat
  is_used : Bool
deriving DecidableEq

/-- A row of the `telegram_connections` table. -/
structure ConnectionRow where
  user_id : String
  telegram_user_id : String
  telegram_username : Option String
  telegram_first_name : Option String
  telegram_last_name : Option String
  is_active : Bool
  connected_at : Nat
deriving DecidableEq

/-- The persistent state touched by `AuthService`. -/
structure AuthDB where
  auth_codes : List AuthCodeRow
  connections : List ConnectionRow
deriving DecidableEq

/-- The auth-domain error taxonomy (spec section 7). -/
inductive VerifyError
  | invalidCode
  | codeAlreadyUsed
  | codeExpired
  | alreadyConnectedElsewhere
deriving DecidableEq

/-- The exact error strings returned by `verify_and_connect`. -/
def errorMessage : VerifyError → String
  | .invalidCode => "Invalid code"
  | .codeAlreadyUsed => "Code already used"
  | .codeExpired => "Code expired"
  | .alreadyConnectedElsewhere =>
      "Telegram account already connected to another MemoryVault account"

/-- Result of `verify_and_connect`: the returned dict has either
`success = True` with the account id, or `success = False` with an error. -/
inductive VerifyResult
  | ok (user_id : String)
  | err (e : VerifyError)
deriving DecidableEq

/-- `AuthService.generate_auth_code` (auth_service.py lines 19-55): the first
UPDATE marks every unused code of the user as used, then the INSERT appends the
fresh code.  `created_at` is the DB default `NOW()`, modelled as `now`;
`expires_at` is offset by the configured duration `expiryDelta`. -/
def generate_auth_code (codes : List AuthCodeRow) (user_id code : String)
    (now expiryDelta : Nat) : List AuthCodeRow :=
  let invalidated := codes.map fun r =>
    if r.user_id = user_id ∧ r.is_used = false then { r with is_used := true } else r
  invalidated ++ [{ user_id := user_id, code := code, created_at := now,
                    expires_at := now + expiryDelta, is_used := false }]

/-- Keep the row created later (the SQL `ORDER BY created_at DESC LIMIT 1`
keeps a maximal row; ties are broken arbitrarily by the engine, here by
keeping the earlier-listed row). -/
def laterOf (a b : AuthCodeRow) : AuthCodeRow :=
  if b.created_at > a.created_at then b else a

/-- The `SELECT ... WHERE code = $1 ORDER BY created_at DESC LIMIT 1` of
`verify_and_connect` (auth_service.py lines 72-81). -/
def latestByCode (codes : List AuthCodeRow) (code : String) : Option AuthCodeRow :=
  (codes.filter fun r => r.code = code).foldl
    (fun acc r =>
      match acc with
      | none => some r
      | some b => some (laterOf b r))
    none

/-- The `SELECT ... FROM telegram_connections WHERE telegram_user_id = $1 AND
is_active = true` lookup (auth_service.py lines 102-108). -/
def activeConnectionFor (conns : List ConnectionRow) (tg : String) :
    Option ConnectionRow :=
  conns.find? fun c => c.telegram_user_id = tg ∧ c.is_active = true

/-- The `INSERT ... ON CONFLICT (telegram_user_id) DO UPDATE` statement
(auth_service.py lines 117-135).  If some row holds the conflict key the
engine updates it (every column is overwritten, `connected_at = NOW()`),
otherwise a fresh row is inserted (`connected_at` defaults to `NOW()`). -/
def upsertConnection (conns : List ConnectionRow) (user_id tg : String)
    (uname fname lname : Option String) (now : Nat) : List ConnectionRow :=
  if conns.any fun c => c.telegram_user_id = tg then
    conns.map fun c =>
      if c.telegram_user_id = tg then
        { c with user_id := user_id, telegram_username := uname,
                 telegram_first_name := fname, telegram_last_name := lname,
                 is_active := true, connected_at := now }
      else c
  else
    conns ++ [{ user_id := user_id, telegram_user_id := tg,
                telegram_username := uname, telegram_first_name := fname,
                telegram_last_name := lname, is_active := true,
                connected_at := now }]

/-- The final `UPDATE telegram_auth_codes SET is_used = true WHERE code = $1`
(auth_service.py lines 138-145): note it marks every row carrying the code. -/
def markCodeUsed (codes : List AuthCodeRow) (code : String) : List AuthCodeRow :=
  codes.map fun r => if r.code = code then { r with is_used := true } else r

/-- `AuthService.verify_and_connect` (auth_service.py lines 57-148), with the
current time `now` passed explicitly. -/
def verify_and_connect (s : AuthDB) (auth_code tg : String)
    (uname fname lname : Option String) (now : Nat) : VerifyResult × AuthDB :=
  match latestByCode s.auth_codes auth_code with
  | none => (.err .invalidCode, s)
  | some row =>
    if row.is_used = true then (.err .codeAlreadyUsed, s)
    else if now > row.expires_at then (.err .codeExpired, s)
    else
      let user_id := row.user_id
      let proceed : VerifyResult × AuthDB :=
        (.ok user_id,
         { auth_codes := markCodeUsed s.auth_codes auth_code,
           connections := upsertConnection s.connections user_id tg
             uname fname lname now })
      match activeConnectionFor s.connections tg with
      | some existing =>
          if existing.user_id ≠ user_id then (.err .alreadyConnectedElsewhere, s)
          else proceed
      | none => proceed

/-! ## Memory domain (`app/services/memory_service.py`,
`app/services/storage_service.py`)

The embedding HTTP client returns `Optional[List[float]]`; its outcome is a
parameter `emb : Option (List ℚ)` (floats modelled as rationals).  What the
service binds into the `embedding` column differs per operation, so the
column value is modelled by `EmbParam`. -/

/-- The value bound for the `embedding` column of `memories` in a given SQL
statement: SQL NULL, a Python string, or a raw Python list of floats. -/
inductive EmbParam
  | null
  | text (s : String)
  | floatList (v : List ℚ)
deriving DecidableEq

/-- A row of the `memories` table (`type` is spelled `mtype`). -/
structure MemoryRow where
  id : Nat
  user_id : String
  title : String
  content : String
  mtype : String
  embedding : EmbParam
  index_position : Nat
  source : String
  created_at : Nat
deriving DecidableEq

/-- A row of the `memory_files` table. -/
structure MemoryFileRow where
  memory_id : Nat
  file_name : String
  file_path : String
  file_type : String
  file_size : Nat
deriving DecidableEq

/-- The conversion `f"[{','.join(map(str, embedding))}]"` performed before the
INSERT statements (memory_service.py lines 38-41 and 114-117). -/
def serializeEmbedding (v : List ℚ) : String :=
  "[" ++ String.intercalate "," (v.map toString) ++ "]"

/-- `embedding_str = None`, overwritten with the serialized vector when the
embedding call succeeded (memory_service.py lines 39-41). -/
def embParamOfOpt (emb : Option (List ℚ)) : EmbParam :=
  match emb with
  | none => .null
  | some v => .text (serializeEmbedding v)

/-- `SELECT COALESCE(MAX(index_position), 0) ... WHERE user_id = $1` plus one
(memory_service.py lines 46-50). -/
def next_index (rows : List MemoryRow) (u : String) : Nat :=
  (rows.foldl (fun m r => if r.user_id = u then Nat.max m r.index_position else m) 0) + 1

/-- The success dict of the two memory-creation operations: `create_memory_from_telegram`
returns `memory_id` and `has_embedding`, `create_memory_with_file` returns
`memory_id` and `file_url`. -/
inductive CreateResult
  | okText (memory_id : Nat) (has_embedding : Bool)
  | okFile (memory_id : Nat) (file_url : String)
deriving DecidableEq

/-- `MemoryService.create_memory_from_telegram` (memory_service.py lines
18-72) on its exception-free path: the embedding outcome is the parameter
`emb`, the DB-assigned id is `newId`, `NOW()` is `now`. -/
def create_memory_from_telegram (emb : Option (List ℚ)) (rows : List MemoryRow)
    (u title content source : String) (newId now : Nat) :
    CreateResult × List MemoryRow :=
  let row : MemoryRow :=
    { id := newId, user_id := u, title := title, content := content,
      mtype := "text", embedding := embParamOfOpt emb,
      index_position := next_index rows u, source := source, created_at := now }
  (.okText newId emb.isSome, rows ++ [row])

/-- Result dict of `StorageService.process_telegram_file`. -/
inductive RelayResult
  | ok (public_url : String) (file_size : Nat)
  | fail (error : String)
deriving DecidableEq

/-- Error string for a failed download (storage_service.py line 135). -/
def downloadErrorMsg : String := "Failed to download file from Telegram"

/-- Error string for a failed upload (storage_service.py line 146). -/
def uploadErrorMsg : String := "Failed to upload file to storage"

/-- `StorageService.process_telegram_file` (storage_service.py lines 109-160).
`download` is the outcome of `download_telegram_file` (`None` on any HTTP
failure), `upload` the outcome of `upload_to_supabase` (`None` on storage
failure).  `if not file_bytes` is also true for an empty byte string. -/
def process_telegram_file (download : Option (List Nat)) (upload : Option String) :
    RelayResult :=
  match download with
  | none => .fail downloadErrorMsg
  | some bytes =>
    if bytes = [] then .fail downloadErrorMsg
    else
      match upload with
      | none => .fail uploadErrorMsg
      | some url => .ok url bytes.length

/-- `MemoryService.create_memory_with_file` (memory_service.py lines 74-159)
on its exception-free path.  On relay failure it falls back to
`create_memory_from_telegram` with the annotated content. -/
def create_memory_with_file (download : Option (List Nat)) (upload : Option String)
    (emb : Option (List ℚ)) (rows : List MemoryRow) (files : List MemoryFileRow)
    (u title content file_name file_type source : String) (newId now : Nat) :
    CreateResult × List MemoryRow × List MemoryFileRow :=
  match process_telegram_file download upload with
  | .fail _ =>
    let fallback := create_memory_from_telegram emb rows u title
      (content ++ "\n\n⚠️ File upload failed") source newId now
    (fallback.1, fallback.2, files)
  | .ok public_url file_size =>
    let row : MemoryRow :=
      { id := newId, user_id := u, title := title, content := content,
        mtype := "file", embedding := embParamOfOpt emb,
        index_position := next_index rows u, source := source, created_at := now }
    let frow : MemoryFileRow :=
      { memory_id := newId, file_name := file_name, file_path := public_url,
        file_type := file_type, file_size := file_size }
    (.okFile newId public_url, rows ++ [row], files ++ [frow])

/-- `MemoryService.update_memory_embedding` (memory_service.py lines 245-291).
The final UPDATE binds the raw Python list `embedding` — not the bracketed
string the two create paths build — so the bound column value is
`.floatList v`. -/
def update_memory_embedding (emb : Option (List ℚ)) (rows : List MemoryRow)
    (memory_id : Nat) : Bool × List MemoryRow :=
  match rows.find? fun r => r.id = memory_id with
  | none => (false, rows)
  | some _ =>
    match emb with
    | none => (false, rows)
    | some v =>
      (true, rows.map fun r =>
        if r.id = memory_id then { r with embedding := .floatList v } else r)

/-! ## Search (`MemoryService.search_memories`, memory_service.py lines 182-232)

The fallback query matches `title ILIKE $2 OR content ILIKE $2` with
`$2 = f"%{query}%"`.  `ILIKE` is evaluated by the external database engine;
`likeMatch` models its documented pattern semantics (`%` matches any
sequence, `_` any single character, backslash escapes the next character, a
trailing backslash matches nothing, comparison is case-insensitive). -/

/-- Case-insensitive character comparison used by `ILIKE`. -/
def charILikeEq (p c : Char) : Bool := p.toLower = c.toLower

/-- `%` matches any (possibly empty) sequence: try the rest of the pattern
at every suffix of the string. -/
def likeStar (f : List Char → Bool) : List Char → Bool
  | [] => f []
  | c :: s => f (c :: s) || likeStar f s

/-- SQL `ILIKE` pattern matching of pattern `p` against string `s`,
recursing structurally on the pattern: `%` matches any sequence, `_` any
single character, backslash escapes the next pattern character, and a
trailing backslash matches nothing. -/
def likeMatch : List Char → List Char → Bool
  | [], s => s.isEmpty
  | p :: ps, s =>
    if p = '%' then likeStar (likeMatch ps) s
    else if p = '_' then
      match s with
      | [] => false
      | _ :: s' => likeMatch ps s'
    else if p = '\\' then
      match s with
      | [] => false
      | c :: s' =>
        match ps with
        | [] => false
        | e :: ps' => charILikeEq e c && likeMatch ps' s'
    else
      match s with
      | [] => false
      | c :: s' => charILikeEq p c && likeMatch ps s'

/-- `column ILIKE '%' || query || '%'` as built at memory_service.py line 229. -/
def ilikeContains (hay query : String) : Bool :=
  likeMatch ('%' :: (query.data ++ ['%'])) hay.data

/-- Case-insensitive substring containment — the wording of the claim
(`title or content contains the query as a case-insensitive substring`),
kept separate from the source-derived `ilikeContains` to compare the two. -/
def icontains (hay query : String) : Bool :=
  decide ((query.data.map Char.toLower) <:+: (hay.data.map Char.toLower))

/-- A row of the result set of `search_memories` (`id, title, content,
created_at` plus, in the vector branch only, `similarity`). -/
structure SearchResult where
  id : Nat
  title : String
  content : String
  created_at : Nat
  similarity : Option ℚ
deriving DecidableEq

/-- `WHERE user_id = $1 AND embedding IS NOT NULL` (vector branch). -/
def vectorCandidates (rows : List MemoryRow) (u : String) : List MemoryRow :=
  rows.filter fun r => r.user_id = u ∧ r.embedding ≠ .null

/-- `WHERE user_id = $1 AND (title ILIKE $2 OR content ILIKE $2)` (fallback). -/
def textCandidates (rows : List MemoryRow) (u query : String) : List MemoryRow :=
  rows.filter fun r =>
    r.user_id = u ∧ (ilikeContains r.title query = true ∨ ilikeContains r.content query = true)

/-- `ORDER BY embedding <=> $2::vector` — ascending distance, where the
distance operator `d` is computed by the external pgvector engine. -/
def distLE (d : EmbParam → List ℚ → ℚ) (qv : List ℚ) (a b : MemoryRow) : Prop :=
  d a.embedding qv ≤ d b.embedding qv

instance (d : EmbParam → List ℚ → ℚ) (qv : List ℚ) : DecidableRel (distLE d qv) :=
  fun a b => inferInstanceAs (Decidable (d a.embedding qv ≤ d b.embedding qv))

/-- `ORDER BY created_at DESC` (fallback branch). -/
def recencyGE (a b : MemoryRow) : Prop := b.created_at ≤ a.created_at

instance : DecidableRel recencyGE :=
  fun a b => inferInstanceAs (Decidable (b.created_at ≤ a.created_at))

/-- `MemoryService.search_memories` (memory_service.py lines 182-232).
`queryEmb` is the outcome of `generate_embedding(query)`; when present the
vector branch runs (`similarity = 1 - distance`), otherwise the ILIKE
fallback ordered by recency.  `ORDER BY` is modelled by insertion sort. -/
def search_memories (d : EmbParam → List ℚ → ℚ) (rows : List MemoryRow)
    (u : String) (queryEmb : Option (List ℚ)) (query : String) (limit : Nat) :
    List SearchResult :=
  match queryEmb with
  | some qv =>
      ((List.insertionSort (distLE d qv) (vectorCandidates rows u)).take limit).map
        fun r =>
          { id := r.id, title := r.title, content := r.content,
            created_at := r.created_at, similarity := some (1 - d r.embedding qv) }
  | none =>
      ((List.insertionSort recencyGE (textCandidates rows u query)).take limit).map
        fun r =>
          { id := r.id, title := r.title, content := r.content,
            created_at := r.created_at, similarity := none }

/-- Results ranked by non-increasing reported similarity (equivalently, by
non-decreasing vector distance). -/
def simRanked (a b : SearchResult) : Prop :=
  ∀ x, a.similarity = some x → ∀ y, b.similarity = some y → y ≤ x

/-! ## Text utilities of the vision client
(`app/services/image_analysis_service.py`)

Python strings are sequences of characters; the helpers operate on
`List Char` and are wrapped into `String` at the boundary. -/

/-- The characters Python's `str.split()` treats as whitespace (ASCII). -/
def isPySpace (c : Char) : Bool :=
  c = ' ' ∨ c = '\t' ∨ c = '\n' ∨ c = '\r' ∨ c = '\x0b' ∨ c = '\x0c'

/-- Accumulator-passing implementation of Python `str.split()`:
maximal runs of non-whitespace, empty pieces dropped. -/
def pySplitAux : List Char → List Char → List (List Char)
  | [], acc => if acc = [] then [] else [acc.reverse]
  | c :: s, acc =>
    if isPySpace c then
      if acc = [] then pySplitAux s [] else acc.reverse :: pySplitAux s []
    else pySplitAux s (c :: acc)

/-- Python `text.split()` (no separator argument). -/
def pySplit (l : List Char) : List (List Char) := pySplitAux l []

/-- Python `" ".join(words)`. -/
def joinWords : List (List Char) → List Char
  | [] => []
  | [w] => w
  | w :: ws => w ++ ' ' :: joinWords ws

/-- `" ".join(text.split())` — the whitespace normalization of
`_sanitize_text` (image_analysis_service.py line 188). -/
def normalizeWs (l : List Char) : List Char := joinWords (pySplit l)

/-- `_sanitize_text` (image_analysis_service.py lines 180-194). -/
def sanitize_text (text : String) (maxLength : Nat) : String :=
  if text.data = [] then ""
  else
    let cleaned := normalizeWs text.data
    if maxLength < cleaned.length then ⟨cleaned.take (maxLength - 3) ++ ['.', '.', '.']⟩
    else ⟨cleaned⟩

/-- Python `str.capitalize()`: first character uppercased, the rest
lowercased. -/
def pyCapitalize : List Char → List Char
  | [] => []
  | c :: cs => c.toUpper :: cs.map Char.toLower

/-- `filename.rsplit(".", 1)[0] if "." in filename else filename`
(image_analysis_service.py line 169): drop everything from the last dot on. -/
def stripLastExt (l : List Char) : List Char :=
  if '.' ∈ l then ((l.reverse.dropWhile fun c => !(c = '.')).drop 1).reverse else l

/-- `_extract_title_from_filename` (image_analysis_service.py lines 164-177):
strip the extension, replace `_` and `-` by spaces, capitalize each word,
defaulting to `"Uploaded Image"` when nothing remains. -/
def extract_title_from_filename (filename : String) : String :=
  let name_without_ext := stripLastExt filename.data
  let cleaned := name_without_ext.map fun c => if c = '_' ∨ c = '-' then ' ' else c
  let title := joinWords ((pySplit cleaned).map pyCapitalize)
  if title = [] then "Uploaded Image" else ⟨title⟩

/-- The title-derivation procedure exactly as the claim words it — strip the
extension, replace underscore and hyphen separators with spaces, title-case
each word — with no default for an empty result.  Spec-side definition, kept
to compare against `extract_title_from_filename`. -/
def claimTitleFromFilename (filename : String) : String :=
  ⟨joinWords ((pySplit ((stripLastExt filename.data).map
      fun c => if c = '_' ∨ c = '-' then ' ' else c)).map pyCapitalize)⟩

/-- The analysis dict produced by the vision client. -/
structure ImageAnalysis where
  title : String
  content : String
  tags : List String
  category : String
  confidence : ℚ
deriving DecidableEq

/-- `_fallback_analysis` (image_analysis_service.py lines 149-161). -/
def fallback_analysis (filename : String) (content : String) : ImageAnalysis :=
  { title := extract_title_from_filename filename
    content := if content.data = [] then "Image uploaded from Telegram"
               else ⟨content.data.take 500⟩
    tags := []
    category := "Other"
    confidence := 0 }

/-- Outcome of the vision HTTP call and response parsing in
`analyze_image_from_url` (image_analysis_service.py lines 44-104): non-200
status, a missing assistant message, model output whose JSON cannot be
parsed, or a parsed JSON object (its optional fields). -/
inductive VisionOutcome
  | httpError
  | missingMessage
  | unparseable (raw : String)
  | parsed (title content : Option String) (tags : List String)
      (category : Option String) (confidence : Option ℚ)

/-- The result of `analyze_image_from_url` (image_analysis_service.py lines
75-117) as a function of the call outcome: every failure mode returns
`_fallback_analysis`, a parsed payload is sanitized field by field
(confidence clamped to `[0, 1]`, default `0.5`). -/
def analyze_image (filename : String) : VisionOutcome → ImageAnalysis
  | .httpError => fallback_analysis filename ""
  | .missingMessage => fallback_analysis filename ""
  | .unparseable raw => fallback_analysis filename raw
  | .parsed t c tags cat conf =>
    { title := sanitize_text (t.getD (extract_title_from_filename filename)) 100
      content := sanitize_text (c.getD "") 500
      tags := (tags.take 5).map fun tg => sanitize_text tg 30
      category := sanitize_text (cat.getD "Other") 50
      confidence := max 0 (min 1 (conf.getD (1 / 2))) }

/-! ## Bot orchestrator (`app/services/telegram_bot.py`)

Each inbound event is dispatched to one handler; a handler is a straight-line
sequence of awaited effects.  `handlerTrace` records that sequence in order,
as a function of the facts the handler branches on: whether the sender is
connected, whether the command carried arguments, whether the service call
succeeded, and whether it returned any rows. -/

/-- Which user-facing reply a handler sends (one tag per distinct
`reply_text` call site). -/
inductive MsgKind
  | welcome
  | helpText
  | alreadyConnected
  | usageConnect
  | connectSuccess
  | connectFailure
  | statusStats
  | statusNotConnected
  | addInstructions
  | promptConnect
  | listEmpty
  | listResults
  | searchUsage
  | searchEmpty
  | searchResults
  | memorySaved
  | memorySaveFailed
  | analyzingImage
  | photoSaved
  | photoSaveFailed
  | documentSaved
  | documentSaveFailed
deriving DecidableEq

/-- One awaited effect of a handler, in program order. -/
inductive BotAction
  | resolveStatus
  | reply (m : MsgKind)
  | verifyConnect
  | countMemories
  | listMemories
  | searchOp
  | createTextMemory
  | createFileMemory
deriving DecidableEq

/-- The registered handlers (telegram_bot.py lines 49-66). -/
inductive Handler
  | start
  | connect
  | status
  | add
  | list
  | search
  | help
  | text
  | photo
  | document
deriving DecidableEq

/-- The request-scoped facts a handler branches on. -/
structure EventCtx where
  connected : Bool
  hasArgs : Bool
  opSuccess : Bool
  hasResults : Bool
deriving DecidableEq

/-- The service calls that touch memory records. -/
def memoryActions : List BotAction :=
  [.countMemories, .listMemories, .searchOp, .createTextMemory, .createFileMemory]

/-- The ordered effects of each handler (telegram_bot.py lines 127-578). -/
def handlerTrace (h : Handler) (ctx : EventCtx) : List BotAction :=
  match h with
  | .start => [.reply .welcome]
  | .help => [.reply .helpText]
  | .connect =>
      .resolveStatus ::
      (if ctx.connected then [.reply .alreadyConnected]
       else if ctx.hasArgs = false then [.reply .usageConnect]
       else [.verifyConnect,
             .reply (if ctx.opSuccess then .connectSuccess else .connectFailure)])
  | .status =>
      .resolveStatus ::
      (if ctx.connected then [.countMemories, .reply .statusStats]
       else [.reply .statusNotConnected])
  | .add => [.reply .addInstructions]
  | .list =>
      .resolveStatus ::
      (if ctx.connected then
         [.listMemories, .reply (if ctx.hasResults then .listResults else .listEmpty)]
       else [.reply .promptConnect])
  | .search =>
      .resolveStatus ::
      (if ctx.connected = false then [.reply .promptConnect]
       else if ctx.hasArgs = false then [.reply .searchUsage]
       else [.searchOp,
             .reply (if ctx.hasResults then .searchResults else .searchEmpty)])
  | .text =>
      .resolveStatus ::
      (if ctx.connected then
         [.createTextMemory,
          .reply (if ctx.opSuccess then .memorySaved else .memorySaveFailed)]
       else [.reply .promptConnect])
  | .photo =>
      .resolveStatus ::
      (if ctx.connected then
         [.reply .analyzingImage, .createFileMemory,
          .reply (if ctx.opSuccess then .photoSaved else .photoSaveFailed)]
       else [.reply .promptConnect])
  | .document =>
      .resolveStatus ::
      (if ctx.connected then
         [.createFileMemory,
          .reply (if ctx.opSuccess then .documentSaved else .documentSaveFailed)]
       else [.reply .promptConnect])

/-- Claim C5 as stated: every handler other than the start welcome and the
help handler resolves the sender's connection status first, and on an
unconnected sender sends only the standard connect prompt and stops. -/
def claimC5 : Prop :=
  ∀ h : Handler, h ≠ .start → h ≠ .help →
    ∀ ctx : EventCtx,
      (handlerTrace h ctx).head? = some .resolveStatus ∧
      (ctx.connected = false →
        handlerTrace h ctx = [.resolveStatus, .reply .promptConnect])

/-- No two adjacent characters are both whitespace. -/
def NoDoubleSpace (l : List Char) : Prop :=
  List.Chain' (fun a b => ¬(isPySpace a = true ∧ isPySpace b = true)) l

/-- A query containing none of the SQL LIKE metacharacters `%`, `_`, `\`. -/
def WildcardFree (q : List Char) : Prop :=
  ∀ c ∈ q, ¬(c = '%') ∧ ¬(c = '_') ∧ ¬(c = '\\')

instance (q : List Char) : Decidable (WildcardFree q) :=
  inferInstanceAs (Decidable (∀ c ∈ q, ¬(c = '%') ∧ ¬(c = '_') ∧ ¬(c = '\\')))

/-! ## Helper lemmas about the auth-code lookup -/

theorem foldl_laterOf_some (l : List AuthCodeRow) (b : AuthCodeRow) :
    ∃ c, l.foldl (fun acc r =>
        match acc with
        | none => some r
        | some x => some (laterOf x r)) (some b) = some c ∧
      (c = b ∨ c ∈ l) ∧ b.created_at ≤ c.created_at ∧
      ∀ r ∈ l, r.created_at ≤ c.created_at := by
  induction l generalizing b with
  | nil => exact ⟨b, rfl, Or.inl rfl, Nat.le_refl _, by simp⟩
  | cons r l ih =>
    obtain ⟨c, hc, hmem, hle, hall⟩ := ih (laterOf b r)
    have hb : b.created_at ≤ (laterOf b r).created_at := by
      unfold laterOf; split <;> omega
    have hr : r.created_at ≤ (laterOf b r).created_at := by
      unfold laterOf; split <;> omega
    refine ⟨c, hc, ?_, Nat.le_trans hb hle, ?_⟩
    · rcases hmem with h | h
      · unfold laterOf at h
        split at h
        · exact Or.inr (by simp [h])
        · exact Or.inl h
      · exact Or.inr (List.mem_cons_of_mem _ h)
    · intro x hx
      rcases List.mem_cons.mp hx with rfl | hx
      · exact Nat.le_trans hr hle
      · exact hall x hx

theorem latestByCode_eq_none_iff (codes : List AuthCodeRow) (code : String) :
    latestByCode codes code = none ↔ ∀ r ∈ codes, ¬(r.code = code) := by
  unfold latestByCode
  constructor
  · intro h r hr hcode
    have hmem : r ∈ codes.filter fun x => x.code = code := by
      simp [List.mem_filter, hr, hcode]
    cases hf : codes.filter fun x => x.code = code with
    | nil => rw [hf] at hmem; exact absurd hmem (by simp)
    | cons x xs =>
      rw [hf] at h
      obtain ⟨c, hc, -⟩ := foldl_laterOf_some xs x
      simp only [List.foldl_cons] at h
      rw [hc] at h
      exact Option.noConfusion h
  · intro h
    have hf : (codes.filter fun x => x.code = code) = [] :=
      List.filter_eq_nil_iff.mpr (by intro a ha; simpa using h a ha)
    rw [hf]
    rfl

theorem latestByCode_spec (codes : List AuthCodeRow) (code : String)
    (row : AuthCodeRow) (h : latestByCode codes code = some row) :
    row ∈ codes ∧ row.code = code ∧
      ∀ r ∈ codes, r.code = code → r.created_at ≤ row.created_at := by
  unfold latestByCode at h
  cases hf : codes.filter fun x => x.code = code with
  | nil => rw [hf] at h; exact Option.noConfusion h
  | cons x xs =>
    rw [hf] at h
    simp only [List.foldl_cons] at h
    obtain ⟨c, hc, hmem, -, hall⟩ := foldl_laterOf_some xs x
    rw [hc] at h
    injection h with hcr
    subst hcr
    have hrowf : c ∈ codes.filter fun x => x.code = code := by
      rw [hf]
      rcases hmem with rfl | hm
      · exact List.mem_cons_self _ _
      · exact List.mem_cons_of_mem _ hm
    have hrow := List.mem_filter.mp hrowf
    refine ⟨hrow.1, by simpa using hrow.2, ?_⟩
    intro r hr hrc
    have : r ∈ codes.filter fun x => x.code = code := by
      simp [List.mem_filter, hr, hrc]
    rw [hf] at this
    rcases List.mem_cons.mp this with rfl | hrxs
    · obtain ⟨c', hc', -, hle, -⟩ := foldl_laterOf_some xs r
      rw [hc'] at hc
      cases hc
      exact hle
    · exact hall r hrxs

/-- C1: `verify_and_connect` fails with `InvalidCode` when no auth-code row
matches the code (the lookup returning the most recently created matching
row), with `CodeAlreadyUsed` when the selected row is flagged used — this
check preceding the expiry check, so a used-and-expired code still yields
`CodeAlreadyUsed` — and with `CodeExpired` when the current time exceeds the
row's expiry; in every failure case the stored state (auth codes and
connections) is left untouched. -/
theorem verify_and_connect_failure_cases (s : AuthDB) (auth_code tg : String)
    (uname fname lname : Option String) (now : Nat) :
    ((∀ r ∈ s.auth_codes, ¬(r.code = auth_code)) →
      verify_and_connect s auth_code tg uname fname lname now = (.err .invalidCode, s)) ∧
    (∀ row, latestByCode s.auth_codes auth_code = some row →
      row ∈ s.auth_codes ∧ row.code = auth_code ∧
        ∀ r ∈ s.auth_codes, r.code = auth_code → r.created_at ≤ row.created_at) ∧
    (∀ row, latestByCode s.auth_codes auth_code = some row → row.is_used = true →
      verify_and_connect s auth_code tg uname fname lname now = (.err .codeAlreadyUsed, s)) ∧
    (∀ row, latestByCode s.auth_codes auth_code = some row → row.is_used = false →
      now > row.expires_at →
      verify_and_connect s auth_code tg uname fname lname now = (.err .codeExpired, s)) ∧
    (∀ e, (verify_and_connect s auth_code tg uname fname lname now).1 = .err e →
      (verify_and_connect s auth_code tg uname fname lname now).2 = s) := by
  refine ⟨?_, ?_, ?_, ?_, ?_⟩
  · intro hno
    have hnone : latestByCode s.auth_codes auth_code = none :=
      (latestByCode_eq_none_iff s.auth_codes auth_code).mpr hno
    simp [verify_and_connect, hnone]
  · intro row hrow
    exact latestByCode_spec s.auth_codes auth_code row hrow
  · intro row hrow hused
    simp [verify_and_connect, hrow, hused]
  · intro row hrow hused hexp
    simp [verify_and_connect, hrow, hused, hexp]
  · intro e h
    cases hl : latestByCode s.auth_codes auth_code with
    | none => simp [verify_and_connect, hl]
    | some row =>
      by_cases hused : row.is_used = true
      · simp [verify_and_connect, hl, hused]
      · by_cases hexp : now > row.expires_at
        · simp [verify_and_connect, hl, hused, hexp]
        · cases hex : activeConnectionFor s.connections tg with
          | none => simp [verify_and_connect, hl, hused, hexp, hex] at h
          | some existing =>
            by_cases hne : existing.user_id ≠ row.user_id
            · simp [verify_and_connect, hl, hused, hexp, hex, hne]
            · simp [verify_and_connect, hl, hused, hexp, hex, hne] at h

/-- Witness for C1 at a concrete store: a code row that is both used and
expired fails with `CodeAlreadyUsed`, and an unknown code fails with
`InvalidCode`. -/
theorem verify_and_connect_failure_cases_witness :
    verify_and_connect ⟨[⟨"acct1", "ABC123", 0, 5, true⟩], []⟩ "ABC123" "tg1"
        none none none 10 = (.err .codeAlreadyUsed, ⟨[⟨"acct1", "ABC123", 0, 5, true⟩], []⟩) ∧
    verify_and_connect ⟨[⟨"acct1", "ABC123", 0, 5, true⟩], []⟩ "ZZZZZZ" "tg1"
        none none none 10 = (.err .invalidCode, ⟨[⟨"acct1", "ABC123", 0, 5, true⟩], []⟩) := by
  constructor
  · exact (verify_and_connect_failure_cases ⟨[⟨"acct1", "ABC123", 0, 5, true⟩], []⟩
      "ABC123" "tg1" none none none 10).2.2.1 ⟨"acct1", "ABC123", 0, 5, true⟩
      (by decide) (by decide)
  · exact (verify_and_connect_failure_cases ⟨[⟨"acct1", "ABC123", 0, 5, true⟩], []⟩
      "ZZZZZZ" "tg1" none none none 10).1 (by decide)

/-- C2: after `generate_auth_code`, every pre-existing code row of the user
is flagged used, and the rows of the user that are unused form exactly the
freshly inserted row, whose expiry is the current time offset by the
configured duration — so at most one usable code per user survives. -/
theorem generate_auth_code_invariant (codes : List AuthCodeRow)
    (u code : String) (now delta : Nat) :
    (∀ r ∈ (generate_auth_code codes u code now delta).take codes.length,
      r.user_id = u → r.is_used = true) ∧
    (generate_auth_code codes u code now delta).filter
        (fun r => r.user_id = u ∧ r.is_used = false) =
      [{ user_id := u, code := code, created_at := now,
         expires_at := now + delta, is_used := false }] ∧
    (∀ r ∈ (generate_auth_code codes u code now delta).filter
        (fun r => r.user_id = u ∧ r.is_used = false), now ≤ r.expires_at) := by
  have hmap : ∀ r₀ : AuthCodeRow,
      ((if r₀.user_id = u ∧ r₀.is_used = false then { r₀ with is_used := true } else r₀) :
        AuthCodeRow).user_id = u →
      ((if r₀.user_id = u ∧ r₀.is_used = false then { r₀ with is_used := true } else r₀) :
        AuthCodeRow).is_used = true := by
    intro r₀
    by_cases h : r₀.user_id = u ∧ r₀.is_used = false
    · simp [h]
    · simp only [h, if_false]
      intro huid
      rcases Bool.eq_false_or_eq_true r₀.is_used with hb | hb
      · exact hb
      · exact absurd ⟨huid, hb⟩ h
  have htake : (generate_auth_code codes u code now delta).take codes.length =
      codes.map fun r =>
        if r.user_id = u ∧ r.is_used = false then { r with is_used := true } else r := by
    unfold generate_auth_code
    rw [show codes.length = (codes.map fun r =>
        if r.user_id = u ∧ r.is_used = false then { r with is_used := true } else r).length
      from (List.length_map _ _).symm]
    exact List.take_left _ _
  have hfil : (generate_auth_code codes u code now delta).filter
      (fun r => r.user_id = u ∧ r.is_used = false) =
      [{ user_id := u, code := code, created_at := now,
         expires_at := now + delta, is_used := false }] := by
    unfold generate_auth_code
    rw [List.filter_append]
    have h1 : (codes.map fun r =>
        if r.user_id = u ∧ r.is_used = false then { r with is_used := true } else r).filter
          (fun r => r.user_id = u ∧ r.is_used = false) = [] := by
      apply List.filter_eq_nil_iff.mpr
      intro a ha
      obtain ⟨r₀, -, rfl⟩ := List.mem_map.mp ha
      have := hmap r₀
      simp only [decide_eq_true_eq]
      rintro ⟨huid, hfalse⟩
      rw [this huid] at hfalse
      exact Bool.noConfusion hfalse
    rw [h1]
    simp
  refine ⟨?_, hfil, ?_⟩
  · intro r hr
    rw [htake] at hr
    obtain ⟨r₀, -, rfl⟩ := List.mem_map.mp hr
    exact hmap r₀
  · intro r hr
    rw [hfil] at hr
    have hre : r = ⟨u, code, now, now + delta, false⟩ := by simpa using hr
    rw [hre]
    exact Nat.le_add_right now delta

/-! ## Helper lemmas for the connection upsert -/

theorem filter_map_comm_of_pred_inv {α : Type} (p : α → Bool) (g : α → α)
    (hg : ∀ a, p (g a) = p a) (l : List α) :
    (l.map g).filter p = (l.filter p).map g := by
  induction l with
  | nil => rfl
  | cons a l ih =>
    by_cases h : p a = true
    · simp [List.filter_cons, hg, h, ih]
    · simp only [Bool.not_eq_true] at h
      simp [List.filter_cons, hg, h, ih]

theorem filter_map_id_of_fix {α : Type} (q : α → Bool) (g : α → α)
    (hfix : ∀ a, q a = true → g a = a) (hinv : ∀ a, q (g a) = q a) (l : List α) :
    (l.map g).filter q = l.filter q := by
  induction l with
  | nil => rfl
  | cons a l ih =>
    by_cases h : q a = true
    · simp [List.filter_cons, hinv, h, ih, hfix a h]
    · simp only [Bool.not_eq_true] at h
      simp [List.filter_cons, hinv, h, ih]

theorem markCodeUsed_marks (codes : List AuthCodeRow) (code : String) :
    ∀ r ∈ markCodeUsed codes code, r.code = code → r.is_used = true := by
  intro r hr
  obtain ⟨r₀, -, rfl⟩ := List.mem_map.mp hr
  by_cases h : r₀.code = code
  · simp [h]
  · rw [if_neg h]
    intro hc
    exact absurd hc h

theorem upsertConnection_filter_eq (conns : List ConnectionRow)
    (user_id tg : String) (uname fname lname : Option String) (now : Nat)
    (hU : (conns.filter fun c => c.telegram_user_id = tg).length ≤ 1) :
    (upsertConnection conns user_id tg uname fname lname now).filter
        (fun c => c.telegram_user_id = tg) =
      [⟨user_id, tg, uname, fname, lname, true, now⟩] ∧
    (upsertConnection conns user_id tg uname fname lname now).filter
        (fun c => !(c.telegram_user_id = tg)) =
      conns.filter (fun c => !(c.telegram_user_id = tg)) := by
  set g : ConnectionRow → ConnectionRow := fun c =>
    if c.telegram_user_id = tg then
      { c with user_id := user_id, telegram_username := uname,
               telegram_first_name := fname, telegram_last_name := lname,
               is_active := true, connected_at := now }
    else c with hgdef
  have hinv : ∀ c : ConnectionRow,
      (decide ((g c).telegram_user_id = tg)) = decide (c.telegram_user_id = tg) := by
    intro c
    by_cases h : c.telegram_user_id = tg
    · simp [hgdef, h]
    · simp [hgdef, h]
  unfold upsertConnection
  rw [← hgdef]
  by_cases hany : (conns.any fun c => c.telegram_user_id = tg) = true
  · rw [if_pos hany]
    constructor
    · rw [filter_map_comm_of_pred_inv _ _ hinv]
      have hne : conns.filter (fun c => c.telegram_user_id = tg) ≠ [] := by
        obtain ⟨c, hc, hp⟩ := List.any_eq_true.mp hany
        intro hnil
        have : c ∈ conns.filter fun c => c.telegram_user_id = tg :=
          List.mem_filter.mpr ⟨hc, hp⟩
        rw [hnil] at this
        exact absurd this (by simp)
      have hlen : (conns.filter fun c => c.telegram_user_id = tg).length = 1 := by
        have := List.length_pos.mpr hne
        omega
      obtain ⟨c₀, hc₀⟩ := List.length_eq_one.mp hlen
      rw [hc₀]
      have hmemc₀ : c₀ ∈ conns.filter fun c => c.telegram_user_id = tg := by
        rw [hc₀]; exact List.mem_cons_self _ _
      have hp₀ : c₀.telegram_user_id = tg := by
        simpa using (List.mem_filter.mp hmemc₀).2
      simp [hgdef, hp₀]
    · apply filter_map_id_of_fix
      · intro a ha
        have : ¬(a.telegram_user_id = tg) := by simpa using ha
        simp [hgdef, this]
      · intro a
        simp only [hinv a]
  · rw [if_neg hany]
    have hall : ∀ c ∈ conns, ¬(c.telegram_user_id = tg) := by
      intro c hc
      by_contra hcon
      exact hany (List.any_eq_true.mpr ⟨c, hc, by simpa using hcon⟩)
    constructor
    · rw [List.filter_append]
      have h1 : conns.filter (fun c => c.telegram_user_id = tg) = [] :=
        List.filter_eq_nil_iff.mpr (by intro a ha; simpa using hall a ha)
      rw [h1]
      simp
    · rw [List.filter_append]
      simp

/-- C3: for a valid (found, unused, unexpired) code of account `A`: if the
chat identity already holds an active connection to a different account the
call fails with `AlreadyConnectedElsewhere` and changes nothing; otherwise it
succeeds, the single connection row keyed by the chat identity is upserted
(profile fields and account id overwritten, `is_active` set) with no
duplicate row created, rows keyed by other chat identities are untouched,
and the code is marked used. -/
theorem verify_and_connect_upsert (s : AuthDB) (auth_code tg : String)
    (uname fname lname : Option String) (now : Nat) (row : AuthCodeRow)
    (hrow : latestByCode s.auth_codes auth_code = some row)
    (hused : row.is_used = false)
    (hexp : ¬ now > row.expires_at)
    (hU : (s.connections.filter fun c => c.telegram_user_id = tg).length ≤ 1) :
    (∀ ex, activeConnectionFor s.connections tg = some ex →
      ex.user_id ≠ row.user_id →
      verify_and_connect s auth_code tg uname fname lname now =
        (.err .alreadyConnectedElsewhere, s)) ∧
    ((∀ ex, activeConnectionFor s.connections tg = some ex →
        ex.user_id = row.user_id) →
      (verify_and_connect s auth_code tg uname fname lname now).1 = .ok row.user_id ∧
      ((verify_and_connect s auth_code tg uname fname lname now).2.connections.filter
          (fun c => c.telegram_user_id = tg)) =
        [⟨row.user_id, tg, uname, fname, lname, true, now⟩] ∧
      ((verify_and_connect s auth_code tg uname fname lname now).2.connections.filter
          (fun c => !(c.telegram_user_id = tg))) =
        s.connections.filter (fun c => !(c.telegram_user_id = tg)) ∧
      (∀ r ∈ (verify_and_connect s auth_code tg uname fname lname now).2.auth_codes,
        r.code = auth_code → r.is_used = true)) := by
  have hbody : ∀ hok : (∀ ex, activeConnectionFor s.connections tg = some ex →
      ex.user_id = row.user_id),
      verify_and_connect s auth_code tg uname fname lname now =
        (.ok row.user_id,
         { auth_codes := markCodeUsed s.auth_codes auth_code,
           connections := upsertConnection s.connections row.user_id tg
             uname fname lname now }) := by
    intro hok
    cases hex : activeConnectionFor s.connections tg with
    | none =>
      simp [verify_and_connect, hrow, hused, hexp, hex]
    | some existing =>
      have := hok existing hex
      simp [verify_and_connect, hrow, hused, hexp, hex, this]
  constructor
  · intro ex hex hne
    simp [verify_and_connect, hrow, hused, hexp, hex, hne]
  · intro hok
    rw [hbody hok]
    obtain ⟨h1, h2⟩ := upsertConnection_filter_eq s.connections row.user_id tg
      uname fname lname now hU
    exact ⟨rfl, h1, h2, markCodeUsed_marks s.auth_codes auth_code⟩

/-- Witness for C3: a fresh chat identity connecting with a valid code
succeeds and leaves exactly one active connection row for that identity, and
the same identity connecting to a different account fails with
`AlreadyConnectedElsewhere`. -/
theorem verify_and_connect_upsert_witness :
    (verify_and_connect ⟨[⟨"acct1", "XYZ789", 0, 100, false⟩], []⟩ "XYZ789" "tg9"
        (some "nick") none none 7).1 = .ok "acct1" ∧
    ((verify_and_connect ⟨[⟨"acct1", "XYZ789", 0, 100, false⟩], []⟩ "XYZ789" "tg9"
        (some "nick") none none 7).2.connections.filter
          (fun c => c.telegram_user_id = "tg9")) =
      [⟨"acct1", "tg9", some "nick", none, none, true, 7⟩] ∧
    (verify_and_connect
        ⟨[⟨"acct2", "QQQ111", 0, 100, false⟩],
          [⟨"acct1", "tg9", some "nick", none, none, true, 7⟩]⟩ "QQQ111" "tg9"
        (some "nick") none none 8) =
      (.err .alreadyConnectedElsewhere,
        ⟨[⟨"acct2", "QQQ111", 0, 100, false⟩],
          [⟨"acct1", "tg9", some "nick", none, none, true, 7⟩]⟩) := by
  refine ⟨?_, ?_, ?_⟩
  · exact ((verify_and_connect_upsert ⟨[⟨"acct1", "XYZ789", 0, 100, false⟩], []⟩
      "XYZ789" "tg9" (some "nick") none none 7 ⟨"acct1", "XYZ789", 0, 100, false⟩
      (by decide) (by decide) (by decide) (by decide)).2
      (fun ex hex => nomatch hex)).1
  · exact ((verify_and_connect_upsert ⟨[⟨"acct1", "XYZ789", 0, 100, false⟩], []⟩
      "XYZ789" "tg9" (some "nick") none none 7 ⟨"acct1", "XYZ789", 0, 100, false⟩
      (by decide) (by decide) (by decide) (by decide)).2
      (fun ex hex => nomatch hex)).2.1
  · exact (verify_and_connect_upsert
      ⟨[⟨"acct2", "QQQ111", 0, 100, false⟩],
        [⟨"acct1", "tg9", some "nick", none, none, true, 7⟩]⟩ "QQQ111" "tg9"
      (some "nick") none none 8 ⟨"acct2", "QQQ111", 0, 100, false⟩
      (by decide) (by decide) (by decide) (by decide)).1
      ⟨"acct1", "tg9", some "nick", none, none, true, 7⟩ (by decide) (by decide)

/-- C5 (counterexample): the claim as stated is false — the `/add` handler
replies with usage instructions without resolving the sender's connection
status at all, so from an unconnected sender it neither performs the status
lookup first nor sends the standard connect prompt. -/
theorem handlers_gate_claim_false : ¬ claimC5 := by
  intro hcl
  have h := (hcl .add (by decide) (by decide) ⟨false, true, true, true⟩).1
  exact absurd h (by decide)

/-- C5 (amended): the status, list, search, text, photo and document
handlers (and the connect handler) resolve the sender's connection status
before any other action; for an unconnected sender the list, search, text,
photo and document handlers send only the standard connect prompt and stop,
while the status handler sends only a not-connected notice and stops; the
add handler replies with add-usage instructions only — performing no status
lookup, no verification, and no memory operation. -/
theorem handlers_gate_on_connection (ctx : EventCtx) :
    ((handlerTrace .connect ctx).head? = some .resolveStatus ∧
     (handlerTrace .status ctx).head? = some .resolveStatus ∧
     (handlerTrace .list ctx).head? = some .resolveStatus ∧
     (handlerTrace .search ctx).head? = some .resolveStatus ∧
     (handlerTrace .text ctx).head? = some .resolveStatus ∧
     (handlerTrace .photo ctx).head? = some .resolveStatus ∧
     (handlerTrace .document ctx).head? = some .resolveStatus) ∧
    (ctx.connected = false →
      handlerTrace .list ctx = [.resolveStatus, .reply .promptConnect] ∧
      handlerTrace .search ctx = [.resolveStatus, .reply .promptConnect] ∧
      handlerTrace .text ctx = [.resolveStatus, .reply .promptConnect] ∧
      handlerTrace .photo ctx = [.resolveStatus, .reply .promptConnect] ∧
      handlerTrace .document ctx = [.resolveStatus, .reply .promptConnect] ∧
      handlerTrace .status ctx = [.resolveStatus, .reply .statusNotConnected]) ∧
    handlerTrace .add ctx = [.reply .addInstructions] ∧
    (∀ a ∈ handlerTrace .add ctx,
      a ∉ memoryActions ∧ a ≠ .resolveStatus ∧ a ≠ .verifyConnect) := by
  obtain ⟨c, a, o, r⟩ := ctx
  cases c <;> cases a <;> cases o <;> cases r <;> decide

/-- Witness for C5 (amended) at an unconnected sender. -/
theorem handlers_gate_on_connection_witness :
    handlerTrace .list ⟨false, true, true, true⟩ =
      [.resolveStatus, .reply .promptConnect] ∧
    handlerTrace .text ⟨false, true, true, true⟩ =
      [.resolveStatus, .reply .promptConnect] :=
  ⟨((handlers_gate_on_connection ⟨false, true, true, true⟩).2.1 rfl).1,
   ((handlers_gate_on_connection ⟨false, true, true, true⟩).2.1 rfl).2.2.1⟩

/-- C6: `create_memory_from_telegram` always returns success carrying the
created id and the has-embedding flag; the row is inserted with the column
value derived from the embedding outcome, which is SQL NULL exactly when
embedding generation failed — the failure is never propagated. -/
theorem create_memory_embedding_failure_tolerated (emb : Option (List ℚ))
    (rows : List MemoryRow) (u title content source : String) (newId now : Nat) :
    (create_memory_from_telegram emb rows u title content source newId now).1 =
      .okText newId emb.isSome ∧
    (create_memory_from_telegram emb rows u title content source newId now).2 =
      rows ++ [⟨newId, u, title, content, "text", embParamOfOpt emb,
                next_index rows u, source, now⟩] ∧
    embParamOfOpt none = .null :=
  ⟨rfl, rfl, rfl⟩

/-- C7: when the file relay fails, `create_memory_with_file` still succeeds,
inserting a text-only memory whose content carries the failure note and no
`memory_files` row; and the relay reports a download failure and an upload
failure through two distinct error strings. -/
theorem create_memory_file_fallback (download : Option (List Nat))
    (upload : Option String) (emb : Option (List ℚ)) (rows : List MemoryRow)
    (files : List MemoryFileRow)
    (u title content file_name file_type source : String) (newId now : Nat)
    (hfail : ∀ url size, process_telegram_file download upload ≠ .ok url size) :
    (create_memory_with_file download upload emb rows files u title content
        file_name file_type source newId now).1 = .okText newId emb.isSome ∧
    (create_memory_with_file download upload emb rows files u title content
        file_name file_type source newId now).2.1 =
      rows ++ [⟨newId, u, title, content ++ "\n\n⚠️ File upload failed", "text",
                embParamOfOpt emb, next_index rows u, source, now⟩] ∧
    (create_memory_with_file download upload emb rows files u title content
        file_name file_type source newId now).2.2 = files ∧
    (download = none →
      process_telegram_file download upload = .fail downloadErrorMsg) ∧
    (∀ bytes, download = some bytes → ¬(bytes = []) → upload = none →
      process_telegram_file download upload = .fail uploadErrorMsg) ∧
    ¬(downloadErrorMsg = uploadErrorMsg) := by
  obtain ⟨msg, hmsg⟩ : ∃ msg, process_telegram_file download upload = .fail msg := by
    cases hp : process_telegram_file download upload with
    | ok url size => exact absurd hp (hfail url size)
    | fail m => exact ⟨m, rfl⟩
  refine ⟨?_, ?_, ?_, ?_, ?_, by decide⟩
  · simp [create_memory_with_file, hmsg, create_memory_from_telegram]
  · simp [create_memory_with_file, hmsg, create_memory_from_telegram]
  · simp [create_memory_with_file, hmsg, create_memory_from_telegram]
  · intro hd
    simp [process_telegram_file, hd]
  · intro bytes hd hne hu
    simp [process_telegram_file, hd, hne, hu]

/-- Witness for C7: a failed download falls back to a text-only memory with
the annotated content and writes no file row. -/
theorem create_memory_file_fallback_witness :
    (create_memory_with_file none none none [] [] "u" "t" "c" "f.jpg" "image"
        "telegram" 1 0).2.1 =
      [⟨1, "u", "t", "c" ++ "\n\n⚠️ File upload failed", "text", .null, 1,
        "telegram", 0⟩] ∧
    (create_memory_with_file none none none [] [] "u" "t" "c" "f.jpg" "image"
        "telegram" 1 0).2.2 = ([] : List MemoryFileRow) := by
  have h := create_memory_file_fallback none none none [] [] "u" "t" "c" "f.jpg"
    "image" "telegram" 1 0 (fun url size hp => nomatch hp)
  exact ⟨h.2.1, h.2.2.1⟩

/-- C10: the two creation paths bind the embedding column to the bracketed
comma-joined string, but the backfill `update_memory_embedding` binds the
raw float list — so at this concrete input the regenerated embedding is not
stored in the shared serialized representation, contradicting the claim. -/
theorem update_embedding_representation_mismatch :
    (create_memory_from_telegram (some [1, 2]) [] "u" "t" "c" "telegram" 1 0).2 =
      [⟨1, "u", "t", "c", "text", .text "[1,2]", 1, "telegram", 0⟩] ∧
    (update_memory_embedding (some [1, 2])
        [⟨1, "u", "t", "c", "text", .text "[1,2]", 1, "telegram", 0⟩] 1).2 =
      [⟨1, "u", "t", "c", "text", .floatList [1, 2], 1, "telegram", 0⟩] ∧
    (∀ s : String, EmbParam.floatList [1, 2] ≠ .text s) := by
  refine ⟨by decide, by decide, ?_⟩
  intro s h
  exact EmbParam.noConfusion h

/-! ## Helper lemmas about whitespace splitting and joining -/

theorem pySplitAux_words (l : List Char) :
    ∀ acc, (∀ c ∈ acc, isPySpace c = false) →
      ∀ w ∈ pySplitAux l acc, w ≠ [] ∧ ∀ c ∈ w, isPySpace c = false := by
  induction l with
  | nil =>
    intro acc hacc w hw
    unfold pySplitAux at hw
    by_cases h : acc = []
    · rw [if_pos h] at hw
      exact absurd hw (by simp)
    · rw [if_neg h] at hw
      have hww : w = acc.reverse := by simpa using hw
      subst hww
      exact ⟨by simpa using h, by intro c hc; exact hacc c (List.mem_reverse.mp hc)⟩
  | cons c s ih =>
    intro acc hacc w hw
    unfold pySplitAux at hw
    by_cases hsp : isPySpace c = true
    · rw [if_pos hsp] at hw
      by_cases h : acc = []
      · rw [if_pos h] at hw
        exact ih [] (by simp) w hw
      · rw [if_neg h] at hw
        rcases List.mem_cons.mp hw with rfl | hw'
        · exact ⟨by simpa using h,
            by intro x hx; exact hacc x (List.mem_reverse.mp hx)⟩
        · exact ih [] (by simp) w hw'
    · rw [if_neg hsp] at hw
      refine ih (c :: acc) ?_ w hw
      intro x hx
      rcases List.mem_cons.mp hx with rfl | hx'
      · simpa using hsp
      · exact hacc x hx'

theorem chain'_of_all_nonspace (w : List Char)
    (hw : ∀ c ∈ w, isPySpace c = false) : NoDoubleSpace w := by
  induction w with
  | nil => exact List.chain'_nil
  | cons c w ih =>
    rw [NoDoubleSpace, List.chain'_cons']
    refine ⟨?_, ih fun x hx => hw x (List.mem_cons_of_mem _ hx)⟩
    intro y hy
    rintro ⟨hc, -⟩
    rw [hw c (List.mem_cons_self _ _)] at hc
    exact Bool.noConfusion hc

theorem head?_joinWords (w : List Char) (ws : List (List Char)) (hw : w ≠ []) :
    (joinWords (w :: ws)).head? = w.head? := by
  cases ws with
  | nil => rfl
  | cons w' ws' =>
    show (w ++ ' ' :: joinWords (w' :: ws')).head? = w.head?
    cases w with
    | nil => exact absurd rfl hw
    | cons c cs => rfl

theorem noDoubleSpace_joinWords (ws : List (List Char))
    (hws : ∀ w ∈ ws, w ≠ [] ∧ ∀ c ∈ w, isPySpace c = false) :
    NoDoubleSpace (joinWords ws) := by
  induction ws with
  | nil => exact List.chain'_nil
  | cons w ws ih =>
    have hw := hws w (List.mem_cons_self _ _)
    have hrest : ∀ v ∈ ws, v ≠ [] ∧ ∀ c ∈ v, isPySpace c = false :=
      fun v hv => hws v (List.mem_cons_of_mem _ hv)
    cases ws with
    | nil => exact chain'_of_all_nonspace w hw.2
    | cons w' ws' =>
      show NoDoubleSpace (w ++ ' ' :: joinWords (w' :: ws'))
      rw [NoDoubleSpace, List.chain'_append]
      refine ⟨chain'_of_all_nonspace w hw.2, ?_, ?_⟩
      · rw [List.chain'_cons']
        refine ⟨?_, ih hrest⟩
        intro y hy
        have hw' := hrest w' (List.mem_cons_self _ _)
        rw [head?_joinWords w' ws' hw'.1] at hy
        rintro ⟨-, hsp⟩
        cases w' with
        | nil => exact absurd rfl hw'.1
        | cons c' cs' =>
          have hyc : c' = y := by simpa using hy
          subst hyc
          rw [hw'.2 c' (List.mem_cons_self _ _)] at hsp
          exact Bool.noConfusion hsp
      · intro x hx y hy
        have hxw : x ∈ w := List.mem_of_mem_getLast? hx
        rintro ⟨hsp, -⟩
        rw [hw.2 x hxw] at hsp
        exact Bool.noConfusion hsp

theorem noDoubleSpace_normalizeWs (l : List Char) : NoDoubleSpace (normalizeWs l) :=
  noDoubleSpace_joinWords (pySplit l) (pySplitAux_words l [] (by simp))

/-- C9: `_sanitize_text` first normalizes whitespace (no two adjacent
whitespace characters survive); for each of the field maxima used by the
vision sanitizer (100, 500, 30, 50), text whose normalized form exceeds the
maximum is truncated and suffixed with the ellipsis marker so that the
result length equals exactly the maximum, and text at or under the maximum
is returned unchanged after normalization. -/
theorem sanitize_text_spec (text : String) (maxLength : Nat)
    (hmax : maxLength = 100 ∨ maxLength = 500 ∨ maxLength = 30 ∨ maxLength = 50) :
    NoDoubleSpace (normalizeWs text.data) ∧
    (maxLength < (normalizeWs text.data).length →
      (sanitize_text text maxLength).data =
        (normalizeWs text.data).take (maxLength - 3) ++ ['.', '.', '.'] ∧
      (sanitize_text text maxLength).length = maxLength) ∧
    ((normalizeWs text.data).length ≤ maxLength →
      (sanitize_text text maxLength).data = normalizeWs text.data) := by
  have h3 : 3 ≤ maxLength := by rcases hmax with rfl | rfl | rfl | rfl <;> omega
  refine ⟨noDoubleSpace_normalizeWs text.data, ?_, ?_⟩
  · intro hlt
    have hdata : (sanitize_text text maxLength).data =
        (normalizeWs text.data).take (maxLength - 3) ++ ['.', '.', '.'] := by
      simp only [sanitize_text]
      split_ifs with h1
      · rw [h1] at hlt
        have hz : normalizeWs [] = [] := rfl
        rw [hz] at hlt
        simp at hlt
      · rfl
    refine ⟨hdata, ?_⟩
    have hlen : (sanitize_text text maxLength).length =
        ((normalizeWs text.data).take (maxLength - 3) ++ ['.', '.', '.']).length := by
      show (sanitize_text text maxLength).data.length = _
      rw [hdata]
    rw [hlen, List.length_append, List.length_take]
    have hmin : min (maxLength - 3) (normalizeWs text.data).length = maxLength - 3 := by
      omega
    rw [hmin]
    show maxLength - 3 + 3 = maxLength
    omega
  · intro hle
    simp only [sanitize_text]
    split_ifs with h1 h2
    · rw [h1]
      rfl
    · omega
    · rfl

/-- Witness for C9: a 31-character text sanitized with maximum 30 comes back
with length exactly 30, ending in the ellipsis marker. -/
theorem sanitize_text_spec_witness :
    30 < (normalizeWs ("abcdefghijklmnopqrstuvwxyz01234" : String).data).length ∧
    (sanitize_text "abcdefghijklmnopqrstuvwxyz01234" 30).length = 30 ∧
    sanitize_text "abcdefghijklmnopqrstuvwxyz01234" 30 = "abcdefghijklmnopqrstuvwxyz0..." := by
  refine ⟨by decide, ?_, by decide⟩
  exact ((sanitize_text_spec "abcdefghijklmnopqrstuvwxyz01234" 30
    (by decide)).2.1 (by decide)).2

/-- The source's title extraction is the claim's procedure plus a default for
the empty result. -/
theorem extract_title_eq_claim (filename : String) :
    extract_title_from_filename filename =
      (if claimTitleFromFilename filename = "" then "Uploaded Image"
       else claimTitleFromFilename filename) := by
  simp only [extract_title_from_filename, claimTitleFromFilename]
  by_cases h : joinWords ((pySplit ((stripLastExt filename.data).map
      fun c => if c = '_' ∨ c = '-' then ' ' else c)).map pyCapitalize) = []
  · rw [if_pos h, if_pos]
    show (⟨joinWords _⟩ : String) = ""
    rw [h]
  · rw [if_neg h, if_neg]
    intro heq
    exact h (congrArg String.data heq)

/-- C8 (counterexample): the claim as stated is false — for the filename
`"-"` the claimed procedure (strip extension, replace separators with
spaces, title-case each word) yields the empty title, but the fallback
returns the default title `"Uploaded Image"`. -/
theorem fallback_title_claim_false :
    (fallback_analysis "-" "").title = "Uploaded Image" ∧
    claimTitleFromFilename "-" = "" ∧
    ¬((analyze_image "-" .httpError).title = claimTitleFromFilename "-") := by
  exact ⟨by decide, by decide, by decide⟩

/-- C8 (amended): for every filename and every failure mode of the vision
call (HTTP failure, missing message, unparseable model output), `describe`
returns the deterministic fallback — confidence `0`, no tags, category
`"Other"`, and the title obtained from the filename by stripping the
extension, replacing underscore and hyphen separators with spaces and
title-casing each word, defaulting to `"Uploaded Image"` when that
procedure yields the empty string; e.g. `"my_trip-photo.jpg"` yields
`"My Trip Photo"`. -/
theorem vision_fallback_deterministic (filename raw : String) (o : VisionOutcome)
    (ho : o = .httpError ∨ o = .missingMessage ∨ o = .unparseable raw) :
    (analyze_image filename o).confidence = 0 ∧
    (analyze_image filename o).tags = [] ∧
    (analyze_image filename o).category = "Other" ∧
    (analyze_image filename o).title =
      (if claimTitleFromFilename filename = "" then "Uploaded Image"
       else claimTitleFromFilename filename) ∧
    claimTitleFromFilename "my_trip-photo.jpg" = "My Trip Photo" := by
  have htitle := extract_title_eq_claim filename
  rcases ho with rfl | rfl | rfl <;>
    exact ⟨rfl, rfl, rfl, htitle, by decide⟩

/-- Witness for C8 (amended) at the claim's own example filename. -/
theorem vision_fallback_deterministic_witness :
    (analyze_image "my_trip-photo.jpg" .httpError).title = "My Trip Photo" ∧
    (analyze_image "my_trip-photo.jpg" .httpError).confidence = 0 ∧
    (analyze_image "my_trip-photo.jpg" .httpError).tags = [] ∧
    (analyze_image "my_trip-photo.jpg" .httpError).category = "Other" := by
  have h := vision_fallback_deterministic "my_trip-photo.jpg" "" .httpError
    (Or.inl rfl)
  refine ⟨?_, h.1, h.2.1, h.2.2.1⟩
  rw [h.2.2.2.1, if_neg (by decide), h.2.2.2.2]

/-! ## Helper lemmas about ILIKE pattern matching -/

theorem likeStar_iff (f : List Char → Bool) (s : List Char) :
    likeStar f s = true ↔ ∃ t, t <:+ s ∧ f t = true := by
  induction s with
  | nil =>
    simp [likeStar]
  | cons c s ih =>
    simp only [likeStar, Bool.or_eq_true, ih]
    constructor
    · rintro (h | ⟨t, ht, hf⟩)
      · exact ⟨c :: s, List.suffix_refl _, h⟩
      · exact ⟨t, ht.trans (List.suffix_cons c s), hf⟩
    · rintro ⟨t, ht, hf⟩
      rcases List.suffix_cons_iff.mp ht with rfl | ht'
      · exact Or.inl hf
      · exact Or.inr ⟨t, ht', hf⟩

theorem likeMatch_pct_eq (ps s : List Char) :
    likeMatch ('%' :: ps) s = likeStar (likeMatch ps) s := by
  cases s <;> cases ps <;> simp [likeMatch]

theorem likeMatch_pct (ps s : List Char) :
    likeMatch ('%' :: ps) s = true ↔ ∃ t, t <:+ s ∧ likeMatch ps t = true := by
  rw [likeMatch_pct_eq, likeStar_iff]

theorem likeMatch_literal_cons (p : Char) (ps s : List Char)
    (hp : ¬(p = '%')) (hu : ¬(p = '_')) (hb : ¬(p = '\\')) :
    likeMatch (p :: ps) s =
      match s with
      | [] => false
      | c :: s' => charILikeEq p c && likeMatch ps s' := by
  cases s with
  | nil => cases ps <;> simp [likeMatch, hp, hu, hb]
  | cons c s' => cases ps <;> simp [likeMatch, hp, hu, hb]

theorem likeMatch_wildcardFree (q : List Char) (hq : WildcardFree q) :
    ∀ s : List Char,
      (likeMatch q s = true ↔ s.map Char.toLower = q.map Char.toLower) := by
  induction q with
  | nil =>
    intro s
    simp [likeMatch, List.isEmpty_iff]
  | cons a q ih =>
    intro s
    obtain ⟨ha1, ha2, ha3⟩ := hq a (List.mem_cons_self _ _)
    have hq' : WildcardFree q := fun c hc => hq c (List.mem_cons_of_mem _ hc)
    rw [likeMatch_literal_cons a q s ha1 ha2 ha3]
    cases s with
    | nil => simp
    | cons c s' =>
      simp only [Bool.and_eq_true, charILikeEq, decide_eq_true_eq, ih hq' s',
        List.map_cons, List.cons.injEq]
      constructor
      · rintro ⟨h1, h2⟩
        exact ⟨h1.symm, h2⟩
      · rintro ⟨h1, h2⟩
        exact ⟨h1.symm, h2⟩

theorem likeMatch_wildcardFree_pct (q : List Char) (hq : WildcardFree q) :
    ∀ s : List Char,
      (likeMatch (q ++ ['%']) s = true ↔
        ∃ t₁ t₂, s = t₁ ++ t₂ ∧ t₁.map Char.toLower = q.map Char.toLower) := by
  induction q with
  | nil =>
    intro s
    rw [List.nil_append, likeMatch_pct]
    constructor
    · intro h
      exact ⟨[], s, rfl, rfl⟩
    · intro h
      exact ⟨[], ⟨s, by simp⟩, rfl⟩
  | cons a q ih =>
    intro s
    obtain ⟨ha1, ha2, ha3⟩ := hq a (List.mem_cons_self _ _)
    have hq' : WildcardFree q := fun c hc => hq c (List.mem_cons_of_mem _ hc)
    rw [List.cons_append, likeMatch_literal_cons a (q ++ ['%']) s ha1 ha2 ha3]
    cases s with
    | nil =>
      constructor
      · intro h
        exact Bool.noConfusion h
      · rintro ⟨t₁, t₂, heq, h2⟩
        cases t₁ with
        | nil => simp at h2
        | cons x xs => exact absurd heq (by simp)
    | cons c s' =>
      simp only [Bool.and_eq_true, charILikeEq, decide_eq_true_eq, ih hq' s']
      constructor
      · rintro ⟨h1, t₁, t₂, rfl, h2⟩
        exact ⟨c :: t₁, t₂, rfl, by simp [h2, h1.symm]⟩
      · rintro ⟨t₁, t₂, heq, h2⟩
        cases t₁ with
        | nil => simp at h2
        | cons c₁ t₁' =>
          rw [List.cons_append] at heq
          injection heq with hc hs
          subst hc
          simp only [List.map_cons, List.cons.injEq] at h2
          exact ⟨h2.1.symm, t₁', t₂, hs, h2.2⟩

theorem ilikeContains_eq_icontains (hay q : String) (hq : WildcardFree q.data) :
    ilikeContains hay q = icontains hay q := by
  have hiff : likeMatch ('%' :: (q.data ++ ['%'])) hay.data = true ↔
      (q.data.map Char.toLower) <:+: (hay.data.map Char.toLower) := by
    rw [likeMatch_pct]
    constructor
    · rintro ⟨t, ⟨pre, hpre⟩, hm⟩
      obtain ⟨t₁, t₂, rfl, h2⟩ := (likeMatch_wildcardFree_pct q.data hq t).mp hm
      refine ⟨pre.map Char.toLower, t₂.map Char.toLower, ?_⟩
      rw [← hpre, ← h2]
      simp [List.map_append]
    · rintro ⟨u, v, huv⟩
      have huv' : u ++ (q.data.map Char.toLower ++ v) = hay.data.map Char.toLower := by
        rw [← huv, List.append_assoc]
      obtain ⟨l₁, l₂, hsplit, hl₁, hl₂⟩ := List.append_eq_map_iff.mp huv'
      obtain ⟨l₃, l₄, hsplit₂, hl₃, hl₄⟩ := List.append_eq_map_iff.mp hl₂.symm
      refine ⟨l₂, ⟨l₁, hsplit.symm⟩, ?_⟩
      exact (likeMatch_wildcardFree_pct q.data hq l₂).mpr ⟨l₃, l₄, hsplit₂, hl₃⟩
  show likeMatch ('%' :: (q.data ++ ['%'])) hay.data =
    decide ((q.data.map Char.toLower) <:+: (hay.data.map Char.toLower))
  cases hb : likeMatch ('%' :: (q.data ++ ['%'])) hay.data with
  | false =>
    have hnot : ¬((q.data.map Char.toLower) <:+: (hay.data.map Char.toLower)) := by
      intro hp
      rw [hiff.mpr hp] at hb
      exact Bool.noConfusion hb
    rw [decide_eq_false hnot]
  | true =>
    exact (decide_eq_true (hiff.mp hb)).symm

/-! ## Helper lemmas about the two search orderings -/

theorem sorted_insertionSort_distLE (d : EmbParam → List ℚ → ℚ) (qv : List ℚ)
    (cand : List MemoryRow) :
    List.Sorted (distLE d qv) (List.insertionSort (distLE d qv) cand) := by
  haveI : IsTotal MemoryRow (distLE d qv) := ⟨fun a b => le_total _ _⟩
  haveI : IsTrans MemoryRow (distLE d qv) :=
    ⟨fun a b c hab hbc => le_trans hab hbc⟩
  exact List.sorted_insertionSort _ _

theorem sorted_insertionSort_recencyGE (cand : List MemoryRow) :
    List.Sorted recencyGE (List.insertionSort recencyGE cand) := by
  haveI : IsTotal MemoryRow recencyGE := ⟨fun a b => Nat.le_total _ _⟩
  haveI : IsTrans MemoryRow recencyGE :=
    ⟨fun a b c hab hbc => Nat.le_trans hbc hab⟩
  exact List.sorted_insertionSort _ _

/-- C4 (amended): `search_memories` is a two-tier strategy with no blending.
When a query embedding exists, it returns only the user's memories with a
non-null stored embedding, ranked by non-decreasing vector distance with
reported similarity `1 - distance`, truncated to the limit.  When embedding
generation fails, it returns the user's memories whose title or content
matches the SQL pattern `%query%` case-insensitively — which coincides with
case-insensitive substring containment whenever the query contains no LIKE
metacharacter (`%`, `_`, `\`) — ordered by creation time descending and
truncated to the limit, with no similarity reported. -/
theorem search_two_tier (d : EmbParam → List ℚ → ℚ) (rows : List MemoryRow)
    (u query : String) (lim : Nat) :
    (∀ qv : List ℚ,
      (∀ res ∈ search_memories d rows u (some qv) query lim,
        ∃ r ∈ rows, r.user_id = u ∧ ¬(r.embedding = .null) ∧
          res = ⟨r.id, r.title, r.content, r.created_at,
                 some (1 - d r.embedding qv)⟩) ∧
      List.Pairwise simRanked (search_memories d rows u (some qv) query lim) ∧
      (search_memories d rows u (some qv) query lim).length ≤ lim) ∧
    ((∀ res ∈ search_memories d rows u none query lim,
        ∃ r ∈ rows, r.user_id = u ∧
          (ilikeContains r.title query = true ∨ ilikeContains r.content query = true) ∧
          res = ⟨r.id, r.title, r.content, r.created_at, none⟩) ∧
      List.Pairwise (fun a b : SearchResult => b.created_at ≤ a.created_at)
        (search_memories d rows u none query lim) ∧
      (search_memories d rows u none query lim).length ≤ lim) ∧
    (WildcardFree query.data →
      ∀ hay : String, ilikeContains hay query = icontains hay query) := by
  refine ⟨?_, ⟨?_, ?_, ?_⟩, fun hq hay => ilikeContains_eq_icontains hay query hq⟩
  · intro qv
    refine ⟨?_, ?_, ?_⟩
    · intro res hres
      simp only [search_memories] at hres
      obtain ⟨r, hr, rfl⟩ := List.mem_map.mp hres
      have hr' : r ∈ List.insertionSort (distLE d qv) (vectorCandidates rows u) :=
        List.take_subset _ _ hr
      rw [List.mem_insertionSort] at hr'
      have hr'' := List.mem_filter.mp hr'
      have hpred : r.user_id = u ∧ ¬(r.embedding = .null) := by
        simpa using hr''.2
      exact ⟨r, hr''.1, hpred.1, hpred.2, rfl⟩
    · simp only [search_memories]
      rw [List.pairwise_map]
      have hsorted := sorted_insertionSort_distLE d qv (vectorCandidates rows u)
      have htake : List.Pairwise (distLE d qv)
          ((List.insertionSort (distLE d qv) (vectorCandidates rows u)).take lim) :=
        List.Pairwise.sublist (List.take_sublist _ _) hsorted
      refine htake.imp ?_
      intro a b hab
      intro x hx y hy
      have hx' := Option.some.inj hx
      have hy' := Option.some.inj hy
      rw [← hx', ← hy']
      exact sub_le_sub_left hab 1
    · simp only [search_memories]
      rw [List.length_map, List.length_take]
      exact min_le_left _ _
  · intro res hres
    simp only [search_memories] at hres
    obtain ⟨r, hr, rfl⟩ := List.mem_map.mp hres
    have hr' : r ∈ List.insertionSort recencyGE (textCandidates rows u query) :=
      List.take_subset _ _ hr
    rw [List.mem_insertionSort] at hr'
    have hr'' := List.mem_filter.mp hr'
    have hpred : r.user_id = u ∧
        (ilikeContains r.title query = true ∨ ilikeContains r.content query = true) := by
      simpa using hr''.2
    exact ⟨r, hr''.1, hpred.1, hpred.2, rfl⟩
  · simp only [search_memories]
    rw [List.pairwise_map]
    have hsorted := sorted_insertionSort_recencyGE (textCandidates rows u query)
    have htake : List.Pairwise recencyGE
        ((List.insertionSort recencyGE (textCandidates rows u query)).take lim) :=
      List.Pairwise.sublist (List.take_sublist _ _) hsorted
    exact htake.imp fun hab => hab
  · simp only [search_memories]
    rw [List.length_map, List.length_take]
    exact min_le_left _ _

/-- C4 (counterexample): the claim's description of the fallback as
case-insensitive substring matching is false — the query text is spliced
unescaped into the LIKE pattern, so for the query `"a%c"` the stored memory
titled `"abc"` is returned although neither its title nor its content
contains `"a%c"` as a case-insensitive substring. -/
theorem search_substring_claim_false :
    search_memories (fun _ _ => 0) [⟨1, "u", "abc", "", "text", .null, 1, "telegram", 0⟩]
        "u" none "a%c" 5 = [⟨1, "abc", "", 0, none⟩] ∧
    icontains "abc" "a%c" = false ∧
    icontains "" "a%c" = false := by
  exact ⟨by decide, by decide, by decide⟩

/-- Witness for C4 (amended): a concrete fallback search returns a match
justified by the ILIKE model, and on a wildcard-free query the ILIKE model
agrees with case-insensitive substring containment. -/
theorem search_two_tier_witness :
    (∃ r ∈ [(⟨1, "u", "xAbCy", "", "text", .null, 1, "telegram", 0⟩ : MemoryRow)],
      r.user_id = "u" ∧
      (ilikeContains r.title "abc" = true ∨ ilikeContains r.content "abc" = true) ∧
      (⟨1, "xAbCy", "", 0, none⟩ : SearchResult) =
        ⟨r.id, r.title, r.content, r.created_at, none⟩) ∧
    ilikeContains "xAbCy" "abc" = icontains "xAbCy" "abc" := by
  have h := search_two_tier (fun _ _ => 0)
    [(⟨1, "u", "xAbCy", "", "text", .null, 1, "telegram", 0⟩ : MemoryRow)] "u" "abc" 5
  exact ⟨h.2.1.1 ⟨1, "xAbCy", "", 0, none⟩ (by decide), h.2.2 (by decide) "xAbCy"⟩

end RecallMatrix
